import Mathlib

/-!
# Verification of the screenplay signaling relay

Shallow embedding of the Socket.IO signaling server in `api/socket.js`
(the address-aware implementation; `api/socket/index.js` is the same
handler set minus the local-network join policy).

The registry state is the pair of JS `Map`s (`rooms`, `clientIPs`),
modelled as insertion-ordered association lists (JS `Map` preserves
insertion order and `Map.set` replaces in place), plus the Socket.IO
transport groups (`socket.join(roomId)` membership), modelled as an
association list from group name to member list.  Each event handler is
a pure function `St → args → St × List Out`, where `Out` records the
`socket.emit` / `io.to(...).emit` calls the handler performs, in order.
-/

namespace Screenplay

/-! ## JS `Map` and `Set` operations on insertion-ordered lists -/

/-- `Map.get`: value at the first entry with the given key. -/
def getK {α : Type} : List (String × α) → String → Option α
  | [], _ => none
  | p :: t, k => if p.1 == k then some p.2 else getK t k

/-- `Map.set`: replace the value at the existing entry in place, else append
(JS `Map` keys are unique, so replacing the first match is `Map.set`). -/
def setK {α : Type} : List (String × α) → String → α → List (String × α)
  | [], k, v => [(k, v)]
  | p :: t, k, v => if p.1 == k then (k, v) :: t else p :: setK t k v

/-- `Map.delete`: drop every entry with the given key. -/
def delK {α : Type} (l : List (String × α)) (k : String) : List (String × α) :=
  l.filter (fun p => p.1 != k)

/-- `Set.add`: append unless already present. -/
def sAdd (s : List String) (x : String) : List String :=
  if s.contains x then s else s ++ [x]

/-- `Set.delete`: remove the element. -/
def sDel (s : List String) (x : String) : List String :=
  s.filter (fun y => y != x)

/-! ## IP classification (`isLocalIP`, `getLocalSubnetPrefix`,
`areOnSameLocalNetwork` from `api/socket.js` lines 10-42) -/

/-- JS `String.prototype.startsWith`, on the character sequence. -/
def startsWithS (s pre : String) : Bool :=
  pre.toList.isPrefixOf s.toList

/-- `isLocalIP`: localhost, `10.*`, `192.168.*`, or `172.16-31.*`
(the regex `/^172\.(1[6-9]|2[0-9]|3[0-1])\./`). -/
def isLocalIP (ip : String) : Bool :=
  ip == "127.0.0.1" || ip == "localhost" ||
  startsWithS ip "10." || startsWithS ip "192.168." ||
  (startsWithS ip "172." &&
    (List.range 16).any
      (fun i => (toString (16 + i) ++ ".").toList.isPrefixOf (ip.toList.drop 4)))

/-- Everything up to and including the LAST `'.'` of the string
(JS `ip.substring(0, ip.lastIndexOf('.') + 1)`), `none` when no dot. -/
def takeToLastDot : List Char → Option (List Char)
  | [] => none
  | c :: rest =>
    match takeToLastDot rest with
    | some p => some (c :: p)
    | none => if c == '.' then some [c] else none

/-- `getLocalSubnetPrefix`: `null` for non-local IPs, else the substring
through the last dot (`192.168.1.xxx ↦ "192.168.1."`), `null` if dotless. -/
def getLocalSubnetPrefix (ip : String) : Option String :=
  if !isLocalIP ip then none
  else (takeToLastDot ip.toList).map (fun cs => String.mk cs)

/-- `areOnSameLocalNetwork`: both local and equal non-null subnet prefixes. -/
def areOnSameLocalNetwork (ip1 ip2 : String) : Bool :=
  if !isLocalIP ip1 || !isLocalIP ip2 then false
  else
    match getLocalSubnetPrefix ip1, getLocalSubnetPrefix ip2 with
    | some p1, some p2 => p1 == p2
    | some _, none => false
    | none, _ => false

/-- Lift of `isLocalIP` to the result of a `clientIPs` lookup.  A missing
entry is unreachable in the running system (the connection handler
registers the client address before any event is processed); it is
treated as non-local, which never triggers the (local ∧ local) rejection. -/
def isLocalIPO (o : Option String) : Bool :=
  o.elim false isLocalIP

/-- Lift of `areOnSameLocalNetwork` to `clientIPs` lookup results. -/
def areOnSameLocalNetworkO (o1 o2 : Option String) : Bool :=
  match o1, o2 with
  | some a, some b => areOnSameLocalNetwork a b
  | some _, none => false
  | none, _ => false

/-! ## Data model -/

/-- A room entry: `{ host, hostIP, viewers, isSharing }` (socket.js:126-131). -/
structure Room where
  host : String
  hostIP : Option String
  viewers : List String
  isSharing : Bool
deriving DecidableEq, Repr

/-- Server state: the `rooms` and `clientIPs` maps plus transport-group
membership (`socket.join`). -/
structure St where
  rooms : List (String × Room)
  clientIPs : List (String × String)
  groups : List (String × List String)
deriving DecidableEq, Repr

/-- Initial state: empty maps. -/
def St.init : St := ⟨[], [], []⟩

/-- Payloads emitted by the server. -/
inductive Msg where
  | roomCreated (roomId : String)
  | roomJoined (roomId : String)
  | errorMsg (text : String)
  | hostIsSharing (roomId : String)
  | newViewer (conn : String)
  | hostStoppedSharing
  | hostDisconnected
  | viewerLeft (conn : String)
  | offerMsg (sender payload : String)
  | answerMsg (sender payload : String)
  | iceCandidate (sender candidate : String)
deriving DecidableEq, Repr

/-- An emission: `socket.emit` / `io.to(connId).emit` to one connection,
or `io.to(roomId).emit` to a transport group. -/
inductive Out where
  | toConn (target : String) (m : Msg)
  | toGroup (roomId : String) (m : Msg)
deriving DecidableEq, Repr

/-- `socket.join(roomId)`: add the connection to the transport group. -/
def joinGroup (s : St) (roomId conn : String) : St :=
  { s with groups := setK s.groups roomId (sAdd ((getK s.groups roomId).getD []) conn) }

/-! ## Event handlers (socket.js:114-265) -/

/-- Connection setup: `clientIPs.set(socket.id, clientIP)` (socket.js:116). -/
def handleConnect (s : St) (conn ip : String) : St × List Out :=
  ({ s with clientIPs := setK s.clientIPs conn ip }, [])

/-- `registerIP` handler (socket.js:119-122). -/
def handleRegisterIP (s : St) (conn ip : String) : St × List Out :=
  ({ s with clientIPs := setK s.clientIPs conn ip }, [])

/-- `createRoom` handler (socket.js:125-136): unconditionally overwrite the
room entry, join the group, emit `roomCreated` to the creator. -/
def handleCreateRoom (s : St) (conn roomId : String) : St × List Out :=
  let s1 := { s with
    rooms := setK s.rooms roomId ⟨conn, getK s.clientIPs conn, [], false⟩ }
  (joinGroup s1 roomId conn, [.toConn conn (.roomCreated roomId)])

/-- `joinRoom` handler (socket.js:139-169): missing room ⇒ error; both
parties on local addresses but not on the same subnet ⇒ policy error;
else add the viewer, join the group, emit `roomJoined` (and
`hostIsSharing` when the host is already sharing). -/
def handleJoinRoom (s : St) (conn roomId : String) : St × List Out :=
  match getK s.rooms roomId with
  | none => (s, [.toConn conn (.errorMsg "Room not found")])
  | some room =>
    let viewerIP := getK s.clientIPs conn
    let hostIP := getK s.clientIPs room.host
    let sameNetwork := areOnSameLocalNetworkO hostIP viewerIP
    if !sameNetwork && isLocalIPO hostIP && isLocalIPO viewerIP then
      (s, [.toConn conn (.errorMsg "You can only join rooms from the same local network")])
    else
      let s1 := { s with
        rooms := setK s.rooms roomId { room with viewers := sAdd room.viewers conn } }
      (joinGroup s1 roomId conn,
        [.toConn conn (.roomJoined roomId)] ++
          (if room.isSharing then [.toConn conn (.hostIsSharing roomId)] else []))

/-- `viewerJoined` handler (socket.js:172-182): notify the host (when the
room exists and `room.host` is truthy) that the viewer is WebRTC-ready. -/
def handleViewerJoined (s : St) (conn roomId : String) : St × List Out :=
  match getK s.rooms roomId with
  | some room =>
    if room.host != "" then (s, [.toConn room.host (.newViewer conn)]) else (s, [])
  | none => (s, [])

/-- `startScreenShare` handler (socket.js:185-192): set `isSharing`;
silent no-op when the room is missing.  The sender is never consulted. -/
def handleStartScreenShare (s : St) (_conn roomId : String) : St × List Out :=
  match getK s.rooms roomId with
  | some room =>
    ({ s with rooms := setK s.rooms roomId { room with isSharing := true } }, [])
  | none => (s, [])

/-- `stopScreenShare` handler (socket.js:195-203): clear `isSharing` and
broadcast `hostStoppedSharing` to the room group; silent no-op when the
room is missing.  The sender is never consulted. -/
def handleStopScreenShare (s : St) (_conn roomId : String) : St × List Out :=
  match getK s.rooms roomId with
  | some room =>
    ({ s with rooms := setK s.rooms roomId { room with isSharing := false } },
      [.toGroup roomId .hostStoppedSharing])
  | none => (s, [])

/-- `offer` handler (socket.js:206-209): pure relay. -/
def handleOffer (s : St) (toId fromId payload : String) : St × List Out :=
  (s, [.toConn toId (.offerMsg fromId payload)])

/-- `answer` handler (socket.js:212-215): pure relay. -/
def handleAnswer (s : St) (toId fromId payload : String) : St × List Out :=
  (s, [.toConn toId (.answerMsg fromId payload)])

/-- The scan in the `iceCandidate` handler (socket.js:222-228): walk the
rooms map in insertion order; the first room whose viewer set contains
`viewer` yields its host, `break`. -/
def findHostForViewer : List (String × Room) → String → Option String
  | [], _ => none
  | p :: t, viewer =>
    if p.2.viewers.contains viewer then some p.2.host else findHostForViewer t viewer

/-- `iceCandidate` handler (socket.js:218-239): when `to` is the role token
`"host"`, resolve the viewer's host via the room scan and relay there (a
falsy `hostId` — the scan finding nothing — drops the candidate); other
targets are a pure relay. -/
def handleIceCandidate (s : St) (toId fromId candidate : String) : St × List Out :=
  if toId == "host" then
    match findHostForViewer s.rooms fromId with
    | some hostId =>
      if hostId != "" then (s, [.toConn hostId (.iceCandidate fromId candidate)])
      else (s, [])
    | none => (s, [])
  else
    (s, [.toConn toId (.iceCandidate fromId candidate)])

/-- Effect of the disconnect sweep (socket.js:246-261) on one room entry:
a room hosted by the departing connection is deleted; a room where it is
a viewer keeps its entry with the viewer removed; others are untouched. -/
def sweepRoom (conn : String) (p : String × Room) : Option (String × Room) :=
  if p.2.host == conn then none
  else if p.2.viewers.contains conn then
    some (p.1, { p.2 with viewers := sDel p.2.viewers conn })
  else some p

/-- Emissions of the disconnect sweep for one room entry:
`hostDisconnected` to the room group when the host leaves, `viewerLeft`
to a truthy host when a viewer leaves, nothing otherwise. -/
def sweepOuts (conn : String) (p : String × Room) : List Out :=
  if p.2.host == conn then [.toGroup p.1 .hostDisconnected]
  else if p.2.viewers.contains conn && p.2.host != "" then
    [.toConn p.2.host (.viewerLeft conn)]
  else []

/-- `disconnect` handler (socket.js:242-265): sweep every room, then
`clientIPs.delete(socket.id)`.  The transport additionally removes the
departed socket from every group (Socket.IO leaves all rooms on
disconnect). -/
def handleDisconnect (s : St) (conn : String) : St × List Out :=
  ({ rooms := s.rooms.filterMap (sweepRoom conn),
     clientIPs := delK s.clientIPs conn,
     groups := s.groups.map (fun p => (p.1, sDel p.2 conn)) },
   s.rooms.flatMap (sweepOuts conn))

/-! ## Event alphabet and traces -/

/-- Inbound events (client → server), including the implicit connection
registration and the transport-generated disconnect. -/
inductive Ev where
  | connect (conn ip : String)
  | registerIP (conn ip : String)
  | createRoom (conn roomId : String)
  | joinRoom (conn roomId : String)
  | viewerJoined (conn roomId : String)
  | startScreenShare (conn roomId : String)
  | stopScreenShare (conn roomId : String)
  | offerEv (toId fromId payload : String)
  | answerEv (toId fromId payload : String)
  | iceCandidateEv (toId fromId candidate : String)
  | disconnect (conn : String)
deriving DecidableEq, Repr

/-- Dispatch an event to its handler. -/
def handle (s : St) : Ev → St × List Out
  | .connect c ip => handleConnect s c ip
  | .registerIP c ip => handleRegisterIP s c ip
  | .createRoom c r => handleCreateRoom s c r
  | .joinRoom c r => handleJoinRoom s c r
  | .viewerJoined c r => handleViewerJoined s c r
  | .startScreenShare c r => handleStartScreenShare s c r
  | .stopScreenShare c r => handleStopScreenShare s c r
  | .offerEv t f p => handleOffer s t f p
  | .answerEv t f p => handleAnswer s t f p
  | .iceCandidateEv t f c => handleIceCandidate s t f c
  | .disconnect c => handleDisconnect s c

/-- The state after an event, discarding emissions. -/
def step (s : St) (e : Ev) : St := (handle s e).1

/-- Run a trace from the initial state. -/
def run (evs : List Ev) : St := evs.foldl step St.init

/-- A state is reachable when some event trace produces it. -/
def Reachable (s : St) : Prop := ∃ evs, run evs = s

/-! ## Spec-side notions for the join policy (claim C3) -/

/-- Modelled from the spec: split a character sequence at every `'.'`
(the dotted-decimal octet decomposition of an address). -/
def splitOnDot : List Char → List (List Char)
  | [] => [[]]
  | c :: rest =>
    if c == '.' then [] :: splitOnDot rest
    else
      match splitOnDot rest with
      | [] => [[c]]
      | g :: gs => (c :: g) :: gs

/-- Join octet groups back with dots; the inverse of `splitOnDot`. -/
def joinDots : List (List Char) → List Char
  | [] => []
  | [g] => g
  | g :: gs => g ++ '.' :: joinDots gs

/-- Modelled from the spec: the first three dotted-decimal octets of an
address (the `/24`-equivalent identity the spec compares). -/
def firstThreeOctets (ip : String) : List (List Char) :=
  (splitOnDot ip.toList).take 3

/-- An address with exactly four dotted-decimal components. -/
def isDottedQuad (ip : String) : Bool :=
  (splitOnDot ip.toList).length == 4

/-! ## Invariant notions -/

/-- The spec invariant of claim C2: no room's host is in its own viewer set. -/
def HostNotViewer (s : St) : Prop :=
  ∀ p ∈ s.rooms, p.2.host ∉ p.2.viewers

/-- An event is a self-join when a connection joins a room it currently
hosts; `selfJoinOK` rules that out for one event against one state. -/
def selfJoinOK (s : St) : Ev → Bool
  | .joinRoom c r =>
    match getK s.rooms r with
    | some room => c != room.host
    | none => true
  | _ => true

/-- A trace is self-join free when no event in it joins a room hosted by
the sender at that point of the run. -/
def selfJoinFree (s : St) : List Ev → Bool
  | [] => true
  | e :: rest => selfJoinOK s e && selfJoinFree (step s e) rest

/-- The members of a transport group (empty when nobody ever joined it). -/
def groupOf (s : St) (r : String) : List String :=
  (getK s.groups r).getD []

/-- Structural well-formedness of a state: room keys are unique (JS `Map`
keys are), and every viewer of a room has joined the room's transport
group (`socket.join` accompanies every viewer-set insertion). -/
def WF (s : St) : Prop :=
  (s.rooms.map Prod.fst).Nodup ∧
  ∀ p ∈ s.rooms, ∀ v ∈ p.2.viewers, v ∈ groupOf s p.1

/-! ## Association-list and set lemmas -/

theorem getK_setK_self {α : Type} (l : List (String × α)) (k : String) (v : α) :
    getK (setK l k v) k = some v := by
  induction l with
  | nil => simp [getK, setK]
  | cons p t ih =>
    by_cases h : p.1 = k
    · simp [setK, getK, h]
    · simp [setK, getK, h, ih]

theorem getK_setK_ne {α : Type} (l : List (String × α)) {k k' : String} (v : α)
    (h : k ≠ k') : getK (setK l k v) k' = getK l k' := by
  induction l with
  | nil => simp [getK, setK, h]
  | cons p t ih =>
    by_cases hp : p.1 = k
    · subst hp; simp [setK, getK, h]
    · simp only [setK, beq_iff_eq, hp, if_false]
      by_cases hp' : p.1 = k' <;> simp [getK, hp', ih]

theorem mem_setK {α : Type} {l : List (String × α)} {k : String} {v : α}
    {p : String × α} (h : p ∈ setK l k v) : p ∈ l ∨ p = (k, v) := by
  induction l with
  | nil => simp [setK] at h; simp [h]
  | cons q t ih =>
    by_cases hq : q.1 = k
    · simp only [setK, hq, beq_self_eq_true, if_true, List.mem_cons] at h
      rcases h with h | h
      · exact Or.inr h
      · exact Or.inl (List.mem_cons_of_mem _ h)
    · simp only [setK, beq_iff_eq, hq, if_false, List.mem_cons] at h
      rcases h with h | h
      · exact Or.inl (h ▸ List.mem_cons_self _ _)
      · rcases ih h with h' | h'
        · exact Or.inl (List.mem_cons_of_mem _ h')
        · exact Or.inr h'

theorem mem_keys_setK {α : Type} {l : List (String × α)} {k x : String} {v : α}
    (h : x ∈ (setK l k v).map Prod.fst) : x ∈ l.map Prod.fst ∨ x = k := by
  rcases List.mem_map.1 h with ⟨p, hp, hx⟩
  rcases mem_setK hp with h' | h'
  · exact Or.inl (List.mem_map.2 ⟨p, h', hx⟩)
  · subst h'; exact Or.inr hx.symm

theorem nodupKeys_setK {α : Type} {l : List (String × α)} (k : String) (v : α)
    (h : (l.map Prod.fst).Nodup) : ((setK l k v).map Prod.fst).Nodup := by
  induction l with
  | nil => simp [setK]
  | cons p t ih =>
    simp only [List.map_cons, List.nodup_cons] at h
    by_cases hp : p.1 = k
    · simp only [setK, hp, beq_self_eq_true, if_true, List.map_cons, List.nodup_cons]
      exact ⟨hp ▸ h.1, h.2⟩
    · simp only [setK, beq_iff_eq, hp, if_false, List.map_cons, List.nodup_cons]
      refine ⟨fun hmem => ?_, ih h.2⟩
      rcases mem_keys_setK hmem with h' | h'
      · exact h.1 h'
      · exact hp h'

theorem getK_mem {α : Type} {l : List (String × α)} {k : String} {v : α}
    (h : getK l k = some v) : (k, v) ∈ l := by
  induction l with
  | nil => simp [getK] at h
  | cons p t ih =>
    by_cases hp : p.1 = k
    · simp only [getK, hp, beq_self_eq_true, if_true, Option.some.injEq] at h
      have : p = (k, v) := Prod.ext_iff.2 ⟨hp, h⟩
      exact this ▸ List.mem_cons_self _ _
    · simp only [getK, beq_iff_eq, hp, if_false] at h
      exact List.mem_cons_of_mem _ (ih h)

theorem getK_eq_none_iff {α : Type} {l : List (String × α)} {k : String} :
    getK l k = none ↔ ∀ p ∈ l, p.1 ≠ k := by
  induction l with
  | nil => simp [getK]
  | cons p t ih =>
    by_cases hp : p.1 = k <;> simp [getK, hp, ih]

theorem getK_mem_unique {α : Type} {l : List (String × α)}
    (hnd : (l.map Prod.fst).Nodup) {k : String} {v : α} (h : getK l k = some v) :
    ∀ p ∈ l, p.1 = k → p = (k, v) := by
  induction l with
  | nil => simp
  | cons q t ih =>
    simp only [List.map_cons, List.nodup_cons] at hnd
    intro p hp hpk
    by_cases hq : q.1 = k
    · simp only [getK, hq, beq_self_eq_true, if_true, Option.some.injEq] at h
      rcases List.mem_cons.1 hp with rfl | hpt
      · exact Prod.ext_iff.2 ⟨hpk, h⟩
      · have hmem : p.1 ∈ t.map Prod.fst := List.mem_map.2 ⟨p, hpt, rfl⟩
        rw [show p.1 = q.1 from hpk.trans hq.symm] at hmem
        exact absurd hmem hnd.1
    · simp only [getK, beq_iff_eq, hq, if_false] at h
      rcases List.mem_cons.1 hp with rfl | hpt
      · exact absurd hpk hq
      · exact ih hnd.2 h p hpt hpk

theorem getK_map_val {α β : Type} (f : α → β) (l : List (String × α)) (k : String) :
    getK (l.map (fun p => (p.1, f p.2))) k = (getK l k).map f := by
  induction l with
  | nil => simp [getK]
  | cons p t ih =>
    by_cases hp : p.1 = k <;> simp [getK, hp, ih]

theorem getK_groups_sDel (l : List (String × List String)) (c k : String) :
    getK (l.map (fun p => (p.1, sDel p.2 c))) k =
      (getK l k).map (fun g => sDel g c) := by
  induction l with
  | nil => simp [getK]
  | cons p t ih =>
    by_cases hp : p.1 = k <;> simp [getK, hp, ih]

theorem mem_sAdd {s : List String} {x y : String} :
    x ∈ sAdd s y ↔ x ∈ s ∨ x = y := by
  unfold sAdd
  by_cases h : s.contains y
  · simp only [h, if_true]
    have hy : y ∈ s := by simpa using h
    constructor
    · exact Or.inl
    · rintro (hx | rfl)
      · exact hx
      · exact hy
  · have h' : y ∉ s := by simpa using h
    simp [h, h']

theorem mem_sDel {s : List String} {x y : String} :
    x ∈ sDel s y ↔ x ∈ s ∧ x ≠ y := by
  simp [sDel, List.mem_filter]

theorem sDel_sDel (s : List String) (y : String) :
    sDel (sDel s y) y = sDel s y := by
  simp [sDel, List.filter_filter]

theorem contains_sDel_self (s : List String) (y : String) :
    (sDel s y).contains y = false := by
  by_cases h : (sDel s y).contains y
  · have : y ∈ sDel s y := by simpa using h
    exact absurd this (by simp [mem_sDel])
  · simpa using h

/-! ## Helper lemmas about the handlers -/

theorem filterMap_self {α : Type} (f : α → Option α) (l : List α)
    (h : ∀ a ∈ l, f a = some a) : l.filterMap f = l := by
  induction l with
  | nil => simp
  | cons a t ih =>
    rw [List.filterMap_cons, h a (List.mem_cons_self _ _),
      ih (fun b hb => h b (List.mem_cons_of_mem _ hb))]

theorem flatMap_nil_of {α β : Type} (g : α → List β) (l : List α)
    (h : ∀ a ∈ l, g a = []) : l.flatMap g = [] := by
  induction l with
  | nil => simp
  | cons a t ih =>
    rw [List.flatMap_cons, h a (List.mem_cons_self _ _),
      ih (fun b hb => h b (List.mem_cons_of_mem _ hb))]
    rfl

theorem sweepRoom_key {conn : String} {p q : String × Room}
    (h : sweepRoom conn p = some q) : q.1 = p.1 := by
  unfold sweepRoom at h
  split at h
  · exact absurd h (by simp)
  · split at h
    · simp only [Option.some.injEq] at h
      rw [← h]
    · simp only [Option.some.injEq] at h
      rw [← h]

theorem sweepRoom_some_props {conn : String} {p q : String × Room}
    (h : sweepRoom conn p = some q) :
    q.2.host ≠ conn ∧ q.2.viewers.contains conn = false := by
  unfold sweepRoom at h
  split at h
  · exact absurd h (by simp)
  · rename_i h1
    split at h
    · simp only [Option.some.injEq] at h
      rw [← h]
      exact ⟨by simpa using h1, contains_sDel_self _ _⟩
    · rename_i h2
      simp only [Option.some.injEq] at h
      rw [← h]
      exact ⟨by simpa using h1, by simpa using h2⟩

theorem sweepRoom_fixed {conn : String} {q : String × Room}
    (h1 : q.2.host ≠ conn) (h2 : q.2.viewers.contains conn = false) :
    sweepRoom conn q = some q := by
  have h2' : conn ∉ q.2.viewers := by simpa using h2
  simp [sweepRoom, h1, h2']

theorem sweepOuts_nil {conn : String} {q : String × Room}
    (h1 : q.2.host ≠ conn) (h2 : q.2.viewers.contains conn = false) :
    sweepOuts conn q = [] := by
  have h2' : conn ∉ q.2.viewers := by simpa using h2
  simp [sweepOuts, h1, h2']

theorem findHostForViewer_some {l : List (String × Room)} {viewer h : String}
    (hf : findHostForViewer l viewer = some h) :
    ∃ p ∈ l, p.2.viewers.contains viewer ∧ p.2.host = h := by
  induction l with
  | nil => simp [findHostForViewer] at hf
  | cons p t ih =>
    by_cases hp : p.2.viewers.contains viewer
    · simp only [findHostForViewer, hp, if_true, Option.some.injEq] at hf
      exact ⟨p, List.mem_cons_self _ _, hp, hf⟩
    · simp only [findHostForViewer, hp, if_false] at hf
      obtain ⟨q, hq, hqv, hqh⟩ := ih hf
      exact ⟨q, List.mem_cons_of_mem _ hq, hqv, hqh⟩

theorem findHostForViewer_isSome {l : List (String × Room)} {viewer : String}
    (p : String × Room) (hp : p ∈ l) (hv : p.2.viewers.contains viewer) :
    ∃ h, findHostForViewer l viewer = some h := by
  induction l with
  | nil => simp at hp
  | cons q t ih =>
    by_cases hq : viewer ∈ q.2.viewers
    · exact ⟨q.2.host, by simp [findHostForViewer, hq]⟩
    · rcases List.mem_cons.1 hp with rfl | hpt
      · exact absurd (by simpa using hv) hq
      · obtain ⟨h, hf⟩ := ih hpt
        exact ⟨h, by simp [findHostForViewer, hq, hf]⟩

theorem findHostForViewer_none {l : List (String × Room)} {viewer : String}
    (h : ∀ p ∈ l, ¬ p.2.viewers.contains viewer) :
    findHostForViewer l viewer = none := by
  induction l with
  | nil => rfl
  | cons p t ih =>
    have hp : ¬ p.2.viewers.contains viewer = true := h p (List.mem_cons_self _ _)
    simp only [findHostForViewer, hp, if_false]
    exact ih (fun q hq => h q (List.mem_cons_of_mem _ hq))

/-! ## Claim theorems -/

/-- C5: for every room id absent from the registry, `joinRoom` from any
connection emits `error("Room not found")` to that connection and leaves
the entire state (rooms, hosts, viewer sets, sharing flags, addresses,
groups) unchanged. -/
theorem joinRoom_missing_room (s : St) (conn roomId : String)
    (h : getK s.rooms roomId = none) :
    handleJoinRoom s conn roomId = (s, [.toConn conn (.errorMsg "Room not found")]) := by
  simp [handleJoinRoom, h]

/-- Witness for C5: joining room `"r"` in the empty registry. -/
theorem joinRoom_missing_room_witness :
    getK St.init.rooms "r" = none ∧
    handleJoinRoom St.init "c" "r" = (St.init, [.toConn "c" (.errorMsg "Room not found")]) :=
  ⟨by decide, joinRoom_missing_room St.init "c" "r" (by decide)⟩

/-- C6: `createRoom` always rebinds the room id to a fresh room whose host
is the creator, whose viewer set is empty and whose `isSharing` is false —
also when the id was already bound — and the only emission is
`roomCreated` to the creator, so prior members get no notification. -/
theorem createRoom_overwrites (s : St) (conn roomId : String) :
    (handleCreateRoom s conn roomId).2 = [.toConn conn (.roomCreated roomId)] ∧
    getK (handleCreateRoom s conn roomId).1.rooms roomId =
      some ⟨conn, getK s.clientIPs conn, [], false⟩ := by
  refine ⟨rfl, ?_⟩
  simp [handleCreateRoom, joinGroup, getK_setK_self]

/-- C10: sharing-state events are unauthorized — any sender `c`, host or
not, flips an existing room's `isSharing` (with `hostStoppedSharing`
broadcast to the group on stop, and no emission on start), and both
events are silent no-ops for a missing room id. -/
theorem screenShare_no_authorization (s : St) (c roomId : String) :
    (∀ room, getK s.rooms roomId = some room →
      getK (handleStartScreenShare s c roomId).1.rooms roomId =
          some { room with isSharing := true } ∧
      (handleStartScreenShare s c roomId).2 = [] ∧
      getK (handleStopScreenShare s c roomId).1.rooms roomId =
          some { room with isSharing := false } ∧
      (handleStopScreenShare s c roomId).2 = [.toGroup roomId .hostStoppedSharing]) ∧
    (getK s.rooms roomId = none →
      handleStartScreenShare s c roomId = (s, []) ∧
      handleStopScreenShare s c roomId = (s, [])) := by
  constructor
  · intro room hroom
    refine ⟨?_, ?_, ?_, ?_⟩ <;>
      simp [handleStartScreenShare, handleStopScreenShare, hroom, getK_setK_self]
  · intro h
    simp [handleStartScreenShare, handleStopScreenShare, h]

/-- Witness for C10: a stranger connection flips the sharing flag of a room
hosted by `"h"`. -/
theorem screenShare_no_authorization_witness :
    getK (handleStartScreenShare (run [.connect "h" "1.1.1.1", .createRoom "h" "r"])
        "stranger" "r").1.rooms "r" = some ⟨"h", some "1.1.1.1", [], true⟩ :=
  ((screenShare_no_authorization (run [.connect "h" "1.1.1.1", .createRoom "h" "r"])
      "stranger" "r").1 ⟨"h", some "1.1.1.1", [], false⟩ (by decide)).1

/-- C7: an accepted `joinRoom` emits `roomJoined` plus `hostIsSharing` to
the joiner exactly when the room's `isSharing` flag is set, and only
`roomJoined` when it is not. -/
theorem joinRoom_lateJoiner_sharing (s : St) (conn roomId : String) (room : Room)
    (hroom : getK s.rooms roomId = some room)
    (hacc : (!areOnSameLocalNetworkO (getK s.clientIPs room.host) (getK s.clientIPs conn) &&
             isLocalIPO (getK s.clientIPs room.host) &&
             isLocalIPO (getK s.clientIPs conn)) = false) :
    (handleJoinRoom s conn roomId).2 =
      if room.isSharing then
        [.toConn conn (.roomJoined roomId), .toConn conn (.hostIsSharing roomId)]
      else [.toConn conn (.roomJoined roomId)] := by
  simp only [handleJoinRoom, hroom, hacc, Bool.false_eq_true, if_false]
  cases room.isSharing <;> simp

/-- Witness for C7: a late joiner of a sharing room receives both events. -/
theorem joinRoom_lateJoiner_sharing_witness :
    (handleJoinRoom
        (run [.connect "h" "9.9.9.9", .connect "v" "8.8.8.8", .createRoom "h" "r",
          .startScreenShare "h" "r"]) "v" "r").2 =
      if (⟨"h", some "9.9.9.9", [], true⟩ : Room).isSharing then
        [.toConn "v" (.roomJoined "r"), .toConn "v" (.hostIsSharing "r")]
      else [.toConn "v" (.roomJoined "r")] :=
  joinRoom_lateJoiner_sharing
    (run [.connect "h" "9.9.9.9", .connect "v" "8.8.8.8", .createRoom "h" "r",
      .startScreenShare "h" "r"])
    "v" "r" ⟨"h", some "9.9.9.9", [], true⟩ (by decide) (by decide)

/-- C4: `iceCandidate` with the role token `"host"` scans the rooms table
for a room whose viewer set contains the sender and relays the candidate
to that room's host exactly once (a singleton emission), leaving the
registry unchanged; when no room's viewer set contains the sender it is
silently dropped — no delivery, no error, no mutation. -/
theorem iceCandidate_roleToken_routing (s : St) (fromId cand : String)
    (hhost : ∀ p ∈ s.rooms, p.2.host ≠ "") :
    (∀ p ∈ s.rooms, p.2.viewers.contains fromId →
      ∃ h, findHostForViewer s.rooms fromId = some h ∧
        (∃ q ∈ s.rooms, q.2.viewers.contains fromId ∧ q.2.host = h) ∧
        handleIceCandidate s "host" fromId cand =
          (s, [.toConn h (.iceCandidate fromId cand)])) ∧
    ((∀ p ∈ s.rooms, ¬ p.2.viewers.contains fromId) →
      handleIceCandidate s "host" fromId cand = (s, [])) := by
  constructor
  · intro p hp hv
    obtain ⟨h, hf⟩ := findHostForViewer_isSome p hp hv
    obtain ⟨q, hq, hqv, hqh⟩ := findHostForViewer_some hf
    have hne : h ≠ "" := hqh ▸ hhost q hq
    refine ⟨h, hf, ⟨q, hq, hqv, hqh⟩, ?_⟩
    simp [handleIceCandidate, hf, hne]
  · intro hnone
    simp [handleIceCandidate, findHostForViewer_none hnone]

/-- Witness for C4: viewer `"v"` of room `"r"` has its candidate relayed to
host `"h"`. -/
theorem iceCandidate_roleToken_routing_witness :
    ∃ h, findHostForViewer
        (run [.connect "h" "1.1.1.1", .connect "v" "2.2.2.2", .createRoom "h" "r",
          .joinRoom "v" "r"]).rooms "v" = some h ∧
      (∃ q ∈ (run [.connect "h" "1.1.1.1", .connect "v" "2.2.2.2", .createRoom "h" "r",
          .joinRoom "v" "r"]).rooms, q.2.viewers.contains "v" ∧ q.2.host = h) ∧
      handleIceCandidate
          (run [.connect "h" "1.1.1.1", .connect "v" "2.2.2.2", .createRoom "h" "r",
            .joinRoom "v" "r"]) "host" "v" "cand" =
        (run [.connect "h" "1.1.1.1", .connect "v" "2.2.2.2", .createRoom "h" "r",
          .joinRoom "v" "r"], [.toConn h (.iceCandidate "v" "cand")]) :=
  (iceCandidate_roleToken_routing
      (run [.connect "h" "1.1.1.1", .connect "v" "2.2.2.2", .createRoom "h" "r",
        .joinRoom "v" "r"]) "v" "cand" (by decide)).1
    ("r", ⟨"h", some "1.1.1.1", ["v"], false⟩) (by decide) (by decide)

/-- C9: the disconnect sweep is idempotent — a second `disconnect` of the
same connection leaves the state exactly as after the first and emits no
notification at all (in particular no `hostDisconnected` or
`viewerLeft`). -/
theorem removeConnection_idempotent (s : St) (conn : String) :
    handleDisconnect (handleDisconnect s conn).1 conn =
      ((handleDisconnect s conn).1, []) := by
  have hrooms : ∀ q ∈ s.rooms.filterMap (sweepRoom conn), sweepRoom conn q = some q := by
    intro q hq
    obtain ⟨p, _, hpq⟩ := List.mem_filterMap.1 hq
    obtain ⟨h1, h2⟩ := sweepRoom_some_props hpq
    exact sweepRoom_fixed h1 h2
  have houts : ∀ q ∈ s.rooms.filterMap (sweepRoom conn), sweepOuts conn q = [] := by
    intro q hq
    obtain ⟨p, _, hpq⟩ := List.mem_filterMap.1 hq
    obtain ⟨h1, h2⟩ := sweepRoom_some_props hpq
    exact sweepOuts_nil h1 h2
  simp only [handleDisconnect, Prod.mk.injEq, St.mk.injEq]
  refine ⟨⟨?_, ?_, ?_⟩, ?_⟩
  · exact filterMap_self _ _ hrooms
  · simp [delK, List.filter_filter]
  · rw [List.map_map]
    apply List.map_congr_left
    intro p _
    simp [Function.comp, sDel_sDel]
  · exact flatMap_nil_of _ _ houts

theorem getK_rooms_after_disconnect (l : List (String × Room)) (conn R : String)
    (room : Room) (hget : getK l R = some room) (hh : room.host ≠ conn) :
    getK (l.filterMap (sweepRoom conn)) R =
      some (if room.viewers.contains conn then
              { room with viewers := sDel room.viewers conn }
            else room) := by
  induction l with
  | nil => simp [getK] at hget
  | cons p t ih =>
    by_cases hp : p.1 = R
    · simp only [getK, beq_iff_eq, hp, if_true, Option.some.injEq] at hget
      subst hget
      have h1 : ¬ (p.2.host == conn) = true := by simpa using hh
      by_cases h2 : conn ∈ p.2.viewers
      · have h2' : p.2.viewers.contains conn = true := by simpa using h2
        simp [List.filterMap_cons, sweepRoom, h1, h2, h2', getK, hp]
      · have h2' : p.2.viewers.contains conn = false := by simpa using h2
        simp [List.filterMap_cons, sweepRoom, h1, h2, h2', getK, hp]
    · simp only [getK, beq_iff_eq, hp, if_false] at hget
      have hrec := ih hget
      cases hsw : sweepRoom conn p with
      | none => simpa [List.filterMap_cons, hsw] using hrec
      | some q =>
        have hq1 : q.1 = p.1 := sweepRoom_key hsw
        simp only [List.filterMap_cons, hsw, getK, beq_iff_eq, hq1, hp, if_false]
        exact hrec

theorem getK_rooms_after_disconnect_other (l : List (String × Room)) (conn r' : String)
    (hother : ∀ p ∈ l, p.1 = r' →
      p.2.host ≠ conn ∧ p.2.viewers.contains conn = false) :
    getK (l.filterMap (sweepRoom conn)) r' = getK l r' := by
  induction l with
  | nil => simp
  | cons p t ih =>
    by_cases hp : p.1 = r'
    · obtain ⟨h1, h2⟩ := hother p (List.mem_cons_self _ _) hp
      simp [List.filterMap_cons, sweepRoom_fixed h1 h2, getK, hp]
    · have hrec := ih (fun q hq hqr => hother q (List.mem_cons_of_mem _ hq) hqr)
      cases hsw : sweepRoom conn p with
      | none =>
        simp only [List.filterMap_cons, hsw]
        rw [hrec]
        simp [getK, hp]
      | some q =>
        have hq1 : q.1 = p.1 := sweepRoom_key hsw
        simp only [List.filterMap_cons, hsw, getK, beq_iff_eq, hq1, hp, if_false]
        exact hrec

theorem disconnect_outs_single (l : List (String × Room)) (conn R : String)
    (room : Room) (hnd : (l.map Prod.fst).Nodup) (hget : getK l R = some room)
    (hv : room.viewers.contains conn = true) (hh : room.host ≠ conn)
    (hhne : room.host ≠ "")
    (honly : ∀ p ∈ l, p.1 ≠ R →
      p.2.host ≠ conn ∧ p.2.viewers.contains conn = false) :
    l.flatMap (sweepOuts conn) = [Out.toConn room.host (Msg.viewerLeft conn)] := by
  induction l with
  | nil => simp [getK] at hget
  | cons p t ih =>
    simp only [List.map_cons, List.nodup_cons] at hnd
    by_cases hp : p.1 = R
    · simp only [getK, beq_iff_eq, hp, if_true, Option.some.injEq] at hget
      subst hget
      have hempty : t.flatMap (sweepOuts conn) = [] := by
        apply flatMap_nil_of
        intro q hq
        have hqR : q.1 ≠ R := by
          intro hEq
          exact hnd.1 (by rw [hp, ← hEq]; exact List.mem_map.2 ⟨q, hq, rfl⟩)
        obtain ⟨hq1, hq2⟩ := honly q (List.mem_cons_of_mem _ hq) hqR
        exact sweepOuts_nil hq1 hq2
      have h1 : ¬ (p.2.host == conn) = true := by simpa using hh
      have hv' : conn ∈ p.2.viewers := by simpa using hv
      simp [List.flatMap_cons, sweepOuts, h1, hv', hhne, hempty]
    · obtain ⟨h1, h2⟩ := honly p (List.mem_cons_self _ _) hp
      simp only [getK, beq_iff_eq, hp, if_false] at hget
      rw [List.flatMap_cons, sweepOuts_nil h1 h2, List.nil_append]
      exact ih hnd.2 hget (fun q hq hqR => honly q (List.mem_cons_of_mem _ hq) hqR)

/-- C8: when a viewer of room `R` disconnects (and, per the spec's
single-room-membership assumption, belongs to no other room), exactly
that connection is removed from `R`'s viewer set, exactly one
`viewerLeft` carrying its identity goes to `R`'s host, and `R` survives
with host, remaining viewers and sharing flag unchanged — as is every
other room. -/
theorem viewer_disconnect_frame (s : St) (R : String) (room : Room) (conn : String)
    (hnd : (s.rooms.map Prod.fst).Nodup)
    (hroom : getK s.rooms R = some room)
    (hv : room.viewers.contains conn = true)
    (hh : conn ≠ room.host) (hhne : room.host ≠ "")
    (honly : ∀ p ∈ s.rooms, p.1 ≠ R →
      p.2.host ≠ conn ∧ p.2.viewers.contains conn = false) :
    getK (handleDisconnect s conn).1.rooms R =
      some { room with viewers := sDel room.viewers conn } ∧
    (handleDisconnect s conn).2 = [.toConn room.host (.viewerLeft conn)] ∧
    ∀ r', r' ≠ R → getK (handleDisconnect s conn).1.rooms r' = getK s.rooms r' := by
  refine ⟨?_, ?_, ?_⟩
  · have hres := getK_rooms_after_disconnect s.rooms conn R room hroom (Ne.symm hh)
    have hv' : conn ∈ room.viewers := by simpa using hv
    simpa [handleDisconnect, hv'] using hres
  · exact disconnect_outs_single s.rooms conn R room hnd hroom hv (Ne.symm hh) hhne honly
  · intro r' hr'
    apply getK_rooms_after_disconnect_other
    intro p hp hpr'
    exact honly p hp (fun hEq => hr' (hpr'.symm.trans hEq))

/-- Witness for C8: viewer `"v"` of the two-viewer room `"r"` disconnects;
`"w"` stays, the host is notified once. -/
theorem viewer_disconnect_frame_witness :
    getK (handleDisconnect
        (run [.connect "h" "1.1.1.1", .connect "v" "2.2.2.2", .connect "w" "3.3.3.3",
          .createRoom "h" "r", .joinRoom "v" "r", .joinRoom "w" "r"]) "v").1.rooms "r" =
      some { (⟨"h", some "1.1.1.1", ["v", "w"], false⟩ : Room) with
              viewers := sDel ["v", "w"] "v" } ∧
    (handleDisconnect
        (run [.connect "h" "1.1.1.1", .connect "v" "2.2.2.2", .connect "w" "3.3.3.3",
          .createRoom "h" "r", .joinRoom "v" "r", .joinRoom "w" "r"]) "v").2 =
      [.toConn "h" (.viewerLeft "v")] ∧
    ∀ r', r' ≠ "r" →
      getK (handleDisconnect
          (run [.connect "h" "1.1.1.1", .connect "v" "2.2.2.2", .connect "w" "3.3.3.3",
            .createRoom "h" "r", .joinRoom "v" "r", .joinRoom "w" "r"]) "v").1.rooms r' =
        getK (run [.connect "h" "1.1.1.1", .connect "v" "2.2.2.2", .connect "w" "3.3.3.3",
          .createRoom "h" "r", .joinRoom "v" "r", .joinRoom "w" "r"]).rooms r' :=
  viewer_disconnect_frame
    (run [.connect "h" "1.1.1.1", .connect "v" "2.2.2.2", .connect "w" "3.3.3.3",
      .createRoom "h" "r", .joinRoom "v" "r", .joinRoom "w" "r"])
    "r" ⟨"h", some "1.1.1.1", ["v", "w"], false⟩ "v"
    (by decide) (by decide) (by decide) (by decide) (by decide) (by decide)

/-! ## The reachability invariant used by claim C1 -/

theorem groupOf_joinGroup_mono {s : St} {r R c v : String}
    (h : v ∈ groupOf s r) : v ∈ groupOf (joinGroup s R c) r := by
  by_cases hr : R = r
  · subst hr
    simp only [groupOf, joinGroup, getK_setK_self, Option.getD_some]
    exact mem_sAdd.2 (Or.inl h)
  · simpa only [groupOf, joinGroup, getK_setK_ne _ _ hr] using h

theorem mem_groupOf_joinGroup (s : St) (R c : String) :
    c ∈ groupOf (joinGroup s R c) R := by
  simp only [groupOf, joinGroup, getK_setK_self, Option.getD_some]
  exact mem_sAdd.2 (Or.inr rfl)

theorem keys_filterMap_sweep (c : String) (l : List (String × Room)) :
    ((l.filterMap (sweepRoom c)).map Prod.fst).Sublist (l.map Prod.fst) := by
  induction l with
  | nil => simp
  | cons p t ih =>
    rw [List.filterMap_cons]
    cases hsw : sweepRoom c p with
    | none => exact List.Sublist.cons _ ih
    | some q =>
      rw [List.map_cons, List.map_cons, sweepRoom_key hsw]
      exact List.Sublist.cons₂ _ ih

theorem sweepRoom_viewers_sub {c : String} {p q : String × Room}
    (h : sweepRoom c p = some q) : ∀ v ∈ q.2.viewers, v ∈ p.2.viewers ∧ v ≠ c := by
  unfold sweepRoom at h
  split at h
  · exact absurd h (by simp)
  · split at h
    · simp only [Option.some.injEq] at h
      intro v hv
      rw [← h] at hv
      exact mem_sDel.1 hv
    · rename_i h2
      simp only [Option.some.injEq] at h
      intro v hv
      rw [← h] at hv
      refine ⟨hv, fun hEq => ?_⟩
      subst hEq
      exact h2 (by simpa using hv)

theorem groupOf_disconnect (s : St) (c r : String) :
    groupOf (handleDisconnect s c).1 r = sDel (groupOf s r) c := by
  cases hg : getK s.groups r with
  | none =>
    simp only [groupOf, handleDisconnect, getK_groups_sDel, hg]
    rfl
  | some g =>
    simp only [groupOf, handleDisconnect, getK_groups_sDel, hg]
    rfl

theorem WF_step (s : St) (e : Ev) (h : WF s) : WF (step s e) := by
  obtain ⟨hnd, hvg⟩ := h
  cases e with
  | connect c ip => exact ⟨hnd, hvg⟩
  | registerIP c ip => exact ⟨hnd, hvg⟩
  | offerEv t f p => exact ⟨hnd, hvg⟩
  | answerEv t f p => exact ⟨hnd, hvg⟩
  | viewerJoined c r =>
    have hs : step s (.viewerJoined c r) = s := by
      show (handleViewerJoined s c r).1 = s
      unfold handleViewerJoined
      cases hm : getK s.rooms r with
      | none => rfl
      | some room => by_cases hb : room.host = "" <;> simp [hb]
    rw [hs]; exact ⟨hnd, hvg⟩
  | iceCandidateEv t f cand =>
    have hs : step s (.iceCandidateEv t f cand) = s := by
      show (handleIceCandidate s t f cand).1 = s
      unfold handleIceCandidate
      by_cases ht : (t == "host") = true
      · simp only [ht, if_true]
        cases hf : findHostForViewer s.rooms f with
        | none => rfl
        | some hostId => by_cases hb : hostId = "" <;> simp [hb]
      · simp [ht]
    rw [hs]; exact ⟨hnd, hvg⟩
  | createRoom c r =>
    refine ⟨nodupKeys_setK _ _ hnd, ?_⟩
    intro p hp v hv
    rcases mem_setK hp with hold | hnew
    · exact groupOf_joinGroup_mono (hvg p hold v hv)
    · rw [hnew] at hv
      exact absurd hv (by simp)
  | joinRoom c r =>
    cases hm : getK s.rooms r with
    | none =>
      have hs : step s (.joinRoom c r) = s := by
        simp [step, handle, handleJoinRoom, hm]
      rw [hs]; exact ⟨hnd, hvg⟩
    | some room =>
      by_cases hpol : (!areOnSameLocalNetworkO (getK s.clientIPs room.host)
          (getK s.clientIPs c) && isLocalIPO (getK s.clientIPs room.host) &&
          isLocalIPO (getK s.clientIPs c)) = true
      · have hs : step s (.joinRoom c r) = s := by
          simp [step, handle, handleJoinRoom, hm, hpol]
        rw [hs]; exact ⟨hnd, hvg⟩
      · have hs : step s (.joinRoom c r) =
            joinGroup
              { s with rooms := setK s.rooms r { room with viewers := sAdd room.viewers c } }
              r c := by
          simp [step, handle, handleJoinRoom, hm, hpol]
        rw [hs]
        refine ⟨nodupKeys_setK _ _ hnd, ?_⟩
        intro p hp v hv
        rcases mem_setK hp with hold | hnew
        · exact groupOf_joinGroup_mono (hvg p hold v hv)
        · rw [hnew] at hv
          rw [hnew]
          rcases mem_sAdd.1 hv with hvold | rfl
          · exact groupOf_joinGroup_mono (hvg (r, room) (getK_mem hm) v hvold)
          · exact mem_groupOf_joinGroup _ _ _
  | startScreenShare c r =>
    cases hm : getK s.rooms r with
    | none =>
      have hs : step s (.startScreenShare c r) = s := by
        simp [step, handle, handleStartScreenShare, hm]
      rw [hs]; exact ⟨hnd, hvg⟩
    | some room =>
      have hs : step s (.startScreenShare c r) =
          { s with rooms := setK s.rooms r { room with isSharing := true } } := by
        simp [step, handle, handleStartScreenShare, hm]
      rw [hs]
      refine ⟨nodupKeys_setK _ _ hnd, ?_⟩
      intro p hp v hv
      rcases mem_setK hp with hold | hnew
      · exact hvg p hold v hv
      · rw [hnew] at hv
        rw [hnew]
        exact hvg (r, room) (getK_mem hm) v hv
  | stopScreenShare c r =>
    cases hm : getK s.rooms r with
    | none =>
      have hs : step s (.stopScreenShare c r) = s := by
        simp [step, handle, handleStopScreenShare, hm]
      rw [hs]; exact ⟨hnd, hvg⟩
    | some room =>
      have hs : step s (.stopScreenShare c r) =
          { s with rooms := setK s.rooms r { room with isSharing := false } } := by
        simp [step, handle, handleStopScreenShare, hm]
      rw [hs]
      refine ⟨nodupKeys_setK _ _ hnd, ?_⟩
      intro p hp v hv
      rcases mem_setK hp with hold | hnew
      · exact hvg p hold v hv
      · rw [hnew] at hv
        rw [hnew]
        exact hvg (r, room) (getK_mem hm) v hv
  | disconnect c =>
    refine ⟨?_, ?_⟩
    · exact List.Nodup.sublist (keys_filterMap_sweep c s.rooms) hnd
    · intro p hp v hv
      obtain ⟨q, hq, hsw⟩ := List.mem_filterMap.1 hp
      obtain ⟨hvq, hvc⟩ := sweepRoom_viewers_sub hsw v hv
      have hs : step s (.disconnect c) = (handleDisconnect s c).1 := rfl
      rw [hs, groupOf_disconnect, sweepRoom_key hsw]
      exact mem_sDel.2 ⟨hvg q hq v hvq, hvc⟩

theorem WF_foldl (evs : List Ev) : ∀ s, WF s → WF (evs.foldl step s) := by
  induction evs with
  | nil => exact fun s h => h
  | cons e t ih => exact fun s h => ih _ (WF_step s e h)

theorem WF_initState : WF St.init := by
  refine ⟨by simp [St.init], ?_⟩
  intro p hp
  simp [St.init] at hp

theorem WF_reachable {s : St} (h : Reachable s) : WF s := by
  obtain ⟨evs, rfl⟩ := h
  exact WF_foldl evs St.init WF_initState

theorem getK_rooms_after_host_disconnect (l : List (String × Room)) (R : String)
    (room : Room) (hnd : (l.map Prod.fst).Nodup) (hget : getK l R = some room) :
    getK (l.filterMap (sweepRoom room.host)) R = none := by
  rw [getK_eq_none_iff]
  intro p' hp'
  obtain ⟨p, hp, hsw⟩ := List.mem_filterMap.1 hp'
  rw [sweepRoom_key hsw]
  intro hEq
  have hpR : p = (R, room) := getK_mem_unique hnd hget p hp hEq
  rw [hpR] at hsw
  simp [sweepRoom] at hsw

theorem count_hostDisconnected (l : List (String × Room)) (R : String) (room : Room)
    (hnd : (l.map Prod.fst).Nodup) (hget : getK l R = some room) :
    (l.flatMap (sweepOuts room.host)).count (Out.toGroup R Msg.hostDisconnected) = 1 := by
  induction l with
  | nil => simp [getK] at hget
  | cons p t ih =>
    simp only [List.map_cons, List.nodup_cons] at hnd
    rw [List.flatMap_cons, List.count_append]
    by_cases hp : p.1 = R
    · simp only [getK, beq_iff_eq, hp, if_true, Option.some.injEq] at hget
      subst hget
      have hcount0 :
          (t.flatMap (sweepOuts p.2.host)).count (Out.toGroup R Msg.hostDisconnected) = 0 := by
        rw [List.count_eq_zero]
        intro hmem
        obtain ⟨q, hq, hqout⟩ := List.mem_flatMap.1 hmem
        have hqR : q.1 ≠ R := by
          intro hEq
          exact hnd.1 (by rw [hp, ← hEq]; exact List.mem_map.2 ⟨q, hq, rfl⟩)
        unfold sweepOuts at hqout
        split at hqout
        · simp only [List.mem_singleton, Out.toGroup.injEq] at hqout
          exact hqR hqout.1.symm
        · split at hqout <;> simp at hqout
      have hhead : sweepOuts p.2.host p = [Out.toGroup p.1 Msg.hostDisconnected] := by
        simp [sweepOuts]
      rw [hhead, hcount0, hp]
      simp
    · simp only [getK, beq_iff_eq, hp, if_false] at hget
      have hcount0 :
          (sweepOuts room.host p).count (Out.toGroup R Msg.hostDisconnected) = 0 := by
        rw [List.count_eq_zero]
        intro hmem
        unfold sweepOuts at hmem
        split at hmem
        · simp only [List.mem_singleton, Out.toGroup.injEq] at hmem
          exact hp hmem.1.symm
        · split at hmem <;> simp at hmem
      rw [hcount0, ih hnd.2 hget]

/-- C1: in any reachable state, when the host of room `R` disconnects,
`R` is gone from the registry and exactly one `hostDisconnected` is
broadcast to `R`'s transport group; every member `c ≠ host` of `R`'s
viewer set is (still) in that group, so the broadcast reaches all of
`R`'s viewers. -/
theorem host_disconnect_destroys_room (s : St) (R : String) (room : Room) (c : String)
    (hreach : Reachable s) (hroom : getK s.rooms R = some room) (hc : c ≠ room.host) :
    getK (handleDisconnect s room.host).1.rooms R = none ∧
    (handleDisconnect s room.host).2.count (Out.toGroup R Msg.hostDisconnected) = 1 ∧
    (c ∈ room.viewers → c ∈ groupOf (handleDisconnect s room.host).1 R) := by
  obtain ⟨hnd, hvg⟩ := WF_reachable hreach
  refine ⟨?_, ?_, ?_⟩
  · exact getK_rooms_after_host_disconnect s.rooms R room hnd hroom
  · exact count_hostDisconnected s.rooms R room hnd hroom
  · intro hcv
    rw [groupOf_disconnect]
    exact mem_sDel.2 ⟨hvg (R, room) (getK_mem hroom) c hcv, hc⟩

/-- Witness for C1: host `"h"` of room `"r"` with viewer `"v"` disconnects. -/
theorem host_disconnect_destroys_room_witness :
    getK (handleDisconnect
        (run [.connect "h" "1.1.1.1", .connect "v" "2.2.2.2", .createRoom "h" "r",
          .joinRoom "v" "r"]) "h").1.rooms "r" = none ∧
    (handleDisconnect
        (run [.connect "h" "1.1.1.1", .connect "v" "2.2.2.2", .createRoom "h" "r",
          .joinRoom "v" "r"]) "h").2.count (Out.toGroup "r" Msg.hostDisconnected) = 1 ∧
    ("v" ∈ (["v"] : List String) → "v" ∈ groupOf (handleDisconnect
        (run [.connect "h" "1.1.1.1", .connect "v" "2.2.2.2", .createRoom "h" "r",
          .joinRoom "v" "r"]) "h").1 "r") :=
  host_disconnect_destroys_room
    (run [.connect "h" "1.1.1.1", .connect "v" "2.2.2.2", .createRoom "h" "r",
      .joinRoom "v" "r"])
    "r" ⟨"h", some "1.1.1.1", ["v"], false⟩ "v"
    ⟨[.connect "h" "1.1.1.1", .connect "v" "2.2.2.2", .createRoom "h" "r",
      .joinRoom "v" "r"], rfl⟩
    (by decide) (by decide)

/-! ## Claim C2: the host-not-in-viewers invariant -/

/-- Counterexample to C2: the trace create-then-self-join — connection
`"a"` creates room `"r"` and then sends `joinRoom("r")` itself — reaches
a registry state where `"r"`'s host is a member of `"r"`'s own viewer
set (the join handler never compares the joiner with the host). -/
theorem host_in_own_viewers_cex :
    getK (run [.connect "a" "1.2.3.4", .createRoom "a" "r", .joinRoom "a" "r"]).rooms "r" =
      some ⟨"a", some "1.2.3.4", ["a"], false⟩ ∧
    (⟨"a", some "1.2.3.4", ["a"], false⟩ : Room).host ∈
      (⟨"a", some "1.2.3.4", ["a"], false⟩ : Room).viewers :=
  ⟨by decide, by decide⟩

theorem sweepRoom_host {c : String} {p q : String × Room}
    (h : sweepRoom c p = some q) : q.2.host = p.2.host := by
  unfold sweepRoom at h
  split at h
  · exact absurd h (by simp)
  · split at h <;> simp only [Option.some.injEq] at h <;> rw [← h]

theorem HostNotViewer_step (e : Ev) (s : St) (h0 : HostNotViewer s)
    (hok : selfJoinOK s e = true) : HostNotViewer (step s e) := by
  cases e with
  | connect c ip => exact h0
  | registerIP c ip => exact h0
  | offerEv t f p => exact h0
  | answerEv t f p => exact h0
  | viewerJoined c r =>
    have hs : step s (.viewerJoined c r) = s := by
      show (handleViewerJoined s c r).1 = s
      unfold handleViewerJoined
      cases hm : getK s.rooms r with
      | none => rfl
      | some room => by_cases hb : room.host = "" <;> simp [hb]
    rw [hs]; exact h0
  | iceCandidateEv t f cand =>
    have hs : step s (.iceCandidateEv t f cand) = s := by
      show (handleIceCandidate s t f cand).1 = s
      unfold handleIceCandidate
      by_cases ht : (t == "host") = true
      · simp only [ht, if_true]
        cases hf : findHostForViewer s.rooms f with
        | none => rfl
        | some hostId => by_cases hb : hostId = "" <;> simp [hb]
      · simp [ht]
    rw [hs]; exact h0
  | createRoom c r =>
    intro p hp
    rcases mem_setK hp with hold | hnew
    · exact h0 p hold
    · rw [hnew]
      simp
  | joinRoom c r =>
    cases hm : getK s.rooms r with
    | none =>
      have hs : step s (.joinRoom c r) = s := by
        simp [step, handle, handleJoinRoom, hm]
      rw [hs]; exact h0
    | some room =>
      have hcne : c ≠ room.host := by
        have hok2 : (match getK s.rooms r with
                     | some room => c != room.host
                     | none => true) = true := hok
        rw [hm] at hok2
        simpa using hok2
      by_cases hpol : (!areOnSameLocalNetworkO (getK s.clientIPs room.host)
          (getK s.clientIPs c) && isLocalIPO (getK s.clientIPs room.host) &&
          isLocalIPO (getK s.clientIPs c)) = true
      · have hs : step s (.joinRoom c r) = s := by
          simp [step, handle, handleJoinRoom, hm, hpol]
        rw [hs]; exact h0
      · have hs : step s (.joinRoom c r) =
            joinGroup
              { s with rooms := setK s.rooms r { room with viewers := sAdd room.viewers c } }
              r c := by
          simp [step, handle, handleJoinRoom, hm, hpol]
        rw [hs]
        intro p hp
        rcases mem_setK hp with hold | hnew
        · exact h0 p hold
        · rw [hnew]
          intro hmem
          rcases mem_sAdd.1 hmem with hmem' | hmem'
          · exact h0 (r, room) (getK_mem hm) hmem'
          · exact hcne hmem'.symm
  | startScreenShare c r =>
    cases hm : getK s.rooms r with
    | none =>
      have hs : step s (.startScreenShare c r) = s := by
        simp [step, handle, handleStartScreenShare, hm]
      rw [hs]; exact h0
    | some room =>
      have hs : step s (.startScreenShare c r) =
          { s with rooms := setK s.rooms r { room with isSharing := true } } := by
        simp [step, handle, handleStartScreenShare, hm]
      rw [hs]
      intro p hp
      rcases mem_setK hp with hold | hnew
      · exact h0 p hold
      · rw [hnew]
        exact h0 (r, room) (getK_mem hm)
  | stopScreenShare c r =>
    cases hm : getK s.rooms r with
    | none =>
      have hs : step s (.stopScreenShare c r) = s := by
        simp [step, handle, handleStopScreenShare, hm]
      rw [hs]; exact h0
    | some room =>
      have hs : step s (.stopScreenShare c r) =
          { s with rooms := setK s.rooms r { room with isSharing := false } } := by
        simp [step, handle, handleStopScreenShare, hm]
      rw [hs]
      intro p hp
      rcases mem_setK hp with hold | hnew
      · exact h0 p hold
      · rw [hnew]
        exact h0 (r, room) (getK_mem hm)
  | disconnect c =>
    intro p hp
    obtain ⟨q, hq, hsw⟩ := List.mem_filterMap.1 hp
    rw [sweepRoom_host hsw]
    intro hmem
    exact h0 q hq (sweepRoom_viewers_sub hsw _ hmem).1

/-- C2 (amended): the invariant "no room's host is in its own viewer set"
holds in every state reached by a trace in which no connection ever
sends `joinRoom` for a room it currently hosts.  (As stated the claim is
false: `host_in_own_viewers_cex` shows a create-then-self-join trace
putting the host into its own viewer set.) -/
theorem host_not_viewer_of_selfJoinFree (evs : List Ev)
    (h : selfJoinFree St.init evs = true) : HostNotViewer (run evs) := by
  suffices haux : ∀ l s, HostNotViewer s → selfJoinFree s l = true →
      HostNotViewer (l.foldl step s) by
    refine haux evs St.init ?_ h
    intro p hp
    simp [St.init] at hp
  intro l
  induction l with
  | nil => exact fun s h0 _ => h0
  | cons e t ih =>
    intro s h0 hsf
    simp only [selfJoinFree, Bool.and_eq_true] at hsf
    exact ih (step s e) (HostNotViewer_step e s h0 hsf.1) hsf.2

/-- Witness for the amended C2: a self-join-free trace with a create and a
distinct joiner keeps every host out of its room's viewer set. -/
theorem host_not_viewer_of_selfJoinFree_witness :
    HostNotViewer (run [.connect "h" "1.1.1.1", .connect "v" "2.2.2.2",
      .createRoom "h" "r", .joinRoom "v" "r"]) :=
  host_not_viewer_of_selfJoinFree
    [.connect "h" "1.1.1.1", .connect "v" "2.2.2.2", .createRoom "h" "r",
      .joinRoom "v" "r"] (by decide)

/-! ## Claim C3: dotted-decimal octets versus the subnet prefix -/

theorem splitOnDot_ne_nil (cs : List Char) : splitOnDot cs ≠ [] := by
  cases cs with
  | nil => simp [splitOnDot]
  | cons c rest =>
    unfold splitOnDot
    by_cases h : (c == '.') = true
    · simp [h]
    · simp only [h, if_false]
      cases hsp : splitOnDot rest <;> simp

theorem joinDots_splitOnDot (cs : List Char) : joinDots (splitOnDot cs) = cs := by
  induction cs with
  | nil => rfl
  | cons c rest ih =>
    unfold splitOnDot
    by_cases h : (c == '.') = true
    · have hc : c = '.' := by simpa using h
      simp only [h, if_true]
      cases hsp : splitOnDot rest with
      | nil => exact absurd hsp (splitOnDot_ne_nil rest)
      | cons g gs =>
        rw [show joinDots ([] :: g :: gs) = '.' :: joinDots (g :: gs) from rfl]
        rw [← hsp, ih, hc]
    · simp only [h, if_false]
      cases hsp : splitOnDot rest with
      | nil => exact absurd hsp (splitOnDot_ne_nil rest)
      | cons g gs =>
        rw [hsp] at ih
        cases gs with
        | nil =>
          have hg : g = rest := by simpa [joinDots] using ih
          show joinDots [c :: g] = c :: rest
          rw [show joinDots [c :: g] = c :: g from rfl, hg]
        | cons g2 gs2 =>
          have ih' : g ++ '.' :: joinDots (g2 :: gs2) = rest := ih
          show joinDots ((c :: g) :: g2 :: gs2) = c :: rest
          rw [show joinDots ((c :: g) :: g2 :: gs2) =
              (c :: g) ++ '.' :: joinDots (g2 :: gs2) from rfl]
          rw [List.cons_append, ih']

theorem no_dot_splitOnDot (cs : List Char) : ∀ g ∈ splitOnDot cs, '.' ∉ g := by
  induction cs with
  | nil =>
    intro g hg
    simp only [splitOnDot, List.mem_singleton] at hg
    simp [hg]
  | cons c rest ih =>
    intro g hg
    unfold splitOnDot at hg
    by_cases h : (c == '.') = true
    · simp only [h, if_true, List.mem_cons] at hg
      rcases hg with rfl | hg
      · simp
      · exact ih g hg
    · obtain ⟨g0, gs, hsp⟩ : ∃ g0 gs, splitOnDot rest = g0 :: gs := by
        cases hx : splitOnDot rest with
        | nil => exact absurd hx (splitOnDot_ne_nil rest)
        | cons g0 gs => exact ⟨g0, gs, rfl⟩
      have hg2 : g ∈ (c :: g0) :: gs := by
        rw [hsp] at hg
        simpa [h] using hg
      rcases List.mem_cons.1 hg2 with hEq | hg3
      · rw [hEq]
        intro hmem
        rcases List.mem_cons.1 hmem with hEq2 | hmem'
        · exact (show c ≠ '.' by simpa using h) hEq2.symm
        · exact ih g0 (by rw [hsp]; exact List.mem_cons_self _ _) hmem'
      · exact ih g (by rw [hsp]; exact List.mem_cons_of_mem _ hg3)

theorem quad_decomp {ip : String} (hq : isDottedQuad ip = true) :
    ∃ a b c d, splitOnDot ip.toList = [a, b, c, d] := by
  have hlen : (splitOnDot ip.toList).length = 4 := by
    simpa [isDottedQuad] using hq
  cases h1 : splitOnDot ip.toList with
  | nil => rw [h1] at hlen; simp at hlen
  | cons a t1 =>
    cases t1 with
    | nil => rw [h1] at hlen; simp at hlen
    | cons b t2 =>
      cases t2 with
      | nil => rw [h1] at hlen; simp at hlen
      | cons c t3 =>
        cases t3 with
        | nil => rw [h1] at hlen; simp at hlen
        | cons d t4 =>
          cases t4 with
          | nil => exact ⟨a, b, c, d, rfl⟩
          | cons e t5 =>
            rw [h1] at hlen
            simp [List.length_cons] at hlen

theorem takeToLastDot_eq_none {l : List Char} (h : '.' ∉ l) :
    takeToLastDot l = none := by
  induction l with
  | nil => rfl
  | cons c rest ih =>
    have h1 : c ≠ '.' := fun hEq => h (hEq ▸ List.mem_cons_self c rest)
    have h2 : '.' ∉ rest := fun hm => h (List.mem_cons_of_mem _ hm)
    unfold takeToLastDot
    rw [ih h2]
    simp [h1]

theorem takeToLastDot_append {xs d : List Char} (hd : '.' ∉ d) :
    takeToLastDot (xs ++ '.' :: d) = some (xs ++ ['.']) := by
  induction xs with
  | nil =>
    show takeToLastDot ('.' :: d) = some ['.']
    unfold takeToLastDot
    rw [takeToLastDot_eq_none hd]
    simp
  | cons x xs ih =>
    show takeToLastDot (x :: (xs ++ '.' :: d)) = some (x :: (xs ++ ['.']))
    unfold takeToLastDot
    rw [ih]

theorem noDot_append_inj : ∀ (a a' r r' : List Char), '.' ∉ a → '.' ∉ a' →
    a ++ '.' :: r = a' ++ '.' :: r' → a = a' ∧ r = r' := by
  intro a
  induction a with
  | nil =>
    intro a' r r' _ ha' h
    cases a' with
    | nil => simpa using h
    | cons x t =>
      simp only [List.nil_append, List.cons_append, List.cons.injEq] at h
      exact absurd (show ('.' : Char) ∈ x :: t by
        rw [h.1]; exact List.mem_cons_self _ _) ha'
  | cons x t ih =>
    intro a' r r' ha ha' h
    cases a' with
    | nil =>
      simp only [List.cons_append, List.nil_append, List.cons.injEq] at h
      exact absurd (show ('.' : Char) ∈ x :: t by
        rw [← h.1]; exact List.mem_cons_self _ _) ha
    | cons y u =>
      simp only [List.cons_append, List.cons.injEq] at h
      obtain ⟨hxy, hrest⟩ := h
      have ht : '.' ∉ t := fun hm => ha (List.mem_cons_of_mem _ hm)
      have hu : '.' ∉ u := fun hm => ha' (List.mem_cons_of_mem _ hm)
      obtain ⟨h1, h2⟩ := ih u r r' ht hu hrest
      exact ⟨by rw [hxy, h1], h2⟩

theorem subnetPrefix_of_quad {ip : String} {a b c d : List Char}
    (hl : isLocalIP ip = true) (hsp : splitOnDot ip.toList = [a, b, c, d]) :
    getLocalSubnetPrefix ip = some (String.mk ((a ++ '.' :: (b ++ '.' :: c)) ++ ['.'])) := by
  have hcs : ip.toList = (a ++ '.' :: (b ++ '.' :: c)) ++ '.' :: d := by
    have hjoin := joinDots_splitOnDot ip.toList
    rw [hsp] at hjoin
    rw [← hjoin]
    show a ++ '.' :: (b ++ '.' :: (c ++ '.' :: d)) = _
    simp [List.append_assoc, List.cons_append]
  have hd : '.' ∉ d := no_dot_splitOnDot ip.toList d (hsp ▸ by simp)
  unfold getLocalSubnetPrefix
  rw [hl]
  rw [hcs, takeToLastDot_append hd]
  rfl

theorem firstThree_of_quad {ip : String} {a b c d : List Char}
    (hsp : splitOnDot ip.toList = [a, b, c, d]) :
    firstThreeOctets ip = [a, b, c] := by
  unfold firstThreeOctets
  rw [hsp]
  rfl

theorem stringMk_inj {l1 l2 : List Char} :
    String.mk l1 = String.mk l2 ↔ l1 = l2 :=
  ⟨fun h => congrArg String.data h, fun h => congrArg String.mk h⟩

theorem prefix_eq_iff_firstThree {a b c a' b' c' : List Char}
    (hna : '.' ∉ a) (hnb : '.' ∉ b) (hnc : '.' ∉ c)
    (hna' : '.' ∉ a') (hnb' : '.' ∉ b') (hnc' : '.' ∉ c') :
    ((a ++ '.' :: (b ++ '.' :: c)) ++ ['.'] = (a' ++ '.' :: (b' ++ '.' :: c')) ++ ['.'])
      ↔ (a = a' ∧ b = b' ∧ c = c') := by
  constructor
  · intro h
    have h1 : a ++ '.' :: ((b ++ '.' :: c) ++ ['.']) =
        a' ++ '.' :: ((b' ++ '.' :: c') ++ ['.']) := by
      simpa [List.append_assoc, List.cons_append] using h
    obtain ⟨ha, hrest⟩ := noDot_append_inj a a' _ _ hna hna' h1
    have h2 : b ++ '.' :: (c ++ ['.']) = b' ++ '.' :: (c' ++ ['.']) := by
      simpa [List.append_assoc, List.cons_append] using hrest
    obtain ⟨hb, hrest2⟩ := noDot_append_inj b b' _ _ hnb hnb' h2
    obtain ⟨hc, _⟩ := noDot_append_inj c c' [] [] hnc hnc'
      (by simpa using hrest2)
    exact ⟨ha, hb, hc⟩
  · rintro ⟨rfl, rfl, rfl⟩
    rfl

theorem areOnSameLocalNetwork_iff {hIP vIP : String}
    (hl : isLocalIP hIP = true) (vl : isLocalIP vIP = true)
    (hq : isDottedQuad hIP = true) (vq : isDottedQuad vIP = true) :
    areOnSameLocalNetwork hIP vIP = true ↔
      firstThreeOctets hIP = firstThreeOctets vIP := by
  obtain ⟨a, b, c, d, hsp⟩ := quad_decomp hq
  obtain ⟨a', b', c', d', vsp⟩ := quad_decomp vq
  have hpre := subnetPrefix_of_quad hl hsp
  have vpre := subnetPrefix_of_quad vl vsp
  rw [firstThree_of_quad hsp, firstThree_of_quad vsp]
  unfold areOnSameLocalNetwork
  rw [hl, vl]
  simp only [Bool.not_true, Bool.or_self]
  rw [if_neg (by simp)]
  rw [hpre, vpre]
  simp only [beq_iff_eq, stringMk_inj]
  rw [prefix_eq_iff_firstThree
    (no_dot_splitOnDot hIP.toList a (hsp ▸ by simp))
    (no_dot_splitOnDot hIP.toList b (hsp ▸ by simp))
    (no_dot_splitOnDot hIP.toList c (hsp ▸ by simp))
    (no_dot_splitOnDot vIP.toList a' (vsp ▸ by simp))
    (no_dot_splitOnDot vIP.toList b' (vsp ▸ by simp))
    (no_dot_splitOnDot vIP.toList c' (vsp ▸ by simp))]
  simp

/-- C3: for dotted-quad addresses, `joinRoom` on an existing room is
rejected with the local-network error (and no state change) exactly when
host and joiner addresses are both private/local and their first three
dotted-decimal octets differ; when at least one address is non-private,
or both are private with equal first three octets, the join is accepted
(viewer added, `roomJoined` emitted). -/
theorem joinRoom_network_policy (s : St) (conn roomId : String) (room : Room)
    (hroom : getK s.rooms roomId = some room)
    (hIP vIP : String)
    (hh : getK s.clientIPs room.host = some hIP)
    (hv : getK s.clientIPs conn = some vIP)
    (hq : isDottedQuad hIP = true) (vq : isDottedQuad vIP = true) :
    ((isLocalIP hIP = true ∧ isLocalIP vIP = true ∧
        firstThreeOctets hIP ≠ firstThreeOctets vIP) →
      handleJoinRoom s conn roomId =
        (s, [.toConn conn
          (.errorMsg "You can only join rooms from the same local network")])) ∧
    ((isLocalIP hIP = false ∨ isLocalIP vIP = false ∨
        firstThreeOctets hIP = firstThreeOctets vIP) →
      (handleJoinRoom s conn roomId).2 =
        [.toConn conn (.roomJoined roomId)] ++
          (if room.isSharing then [.toConn conn (.hostIsSharing roomId)] else []) ∧
      getK (handleJoinRoom s conn roomId).1.rooms roomId =
        some { room with viewers := sAdd room.viewers conn }) := by
  constructor
  · rintro ⟨hl, vl, hne⟩
    have hsame : areOnSameLocalNetwork hIP vIP = false := by
      have hx : ¬ areOnSameLocalNetwork hIP vIP = true :=
        fun hx => hne ((areOnSameLocalNetwork_iff hl vl hq vq).1 hx)
      simpa using hx
    have hcond : (!areOnSameLocalNetworkO (getK s.clientIPs room.host)
        (getK s.clientIPs conn) && isLocalIPO (getK s.clientIPs room.host) &&
        isLocalIPO (getK s.clientIPs conn)) = true := by
      rw [hh, hv]
      simp [areOnSameLocalNetworkO, isLocalIPO, hsame, hl, vl]
    simp [handleJoinRoom, hroom, hcond]
  · intro hacc
    have hcond : (!areOnSameLocalNetworkO (getK s.clientIPs room.host)
        (getK s.clientIPs conn) && isLocalIPO (getK s.clientIPs room.host) &&
        isLocalIPO (getK s.clientIPs conn)) = false := by
      rw [hh, hv]
      rcases hacc with hl0 | vl0 | heq
      · simp [isLocalIPO, hl0]
      · simp [isLocalIPO, vl0]
      · by_cases hl : isLocalIP hIP = true
        · by_cases vl : isLocalIP vIP = true
          · have hsame : areOnSameLocalNetwork hIP vIP = true :=
              (areOnSameLocalNetwork_iff hl vl hq vq).2 heq
            simp [areOnSameLocalNetworkO, hsame]
          · have vl' : isLocalIP vIP = false := by simpa using vl
            simp [isLocalIPO, vl']
        · have hl' : isLocalIP hIP = false := by simpa using hl
          simp [isLocalIPO, hl']
    refine ⟨?_, ?_⟩
    · simp [handleJoinRoom, hroom, hcond]
    · simp [handleJoinRoom, hroom, hcond, joinGroup, getK_setK_self]

/-- Witness for C3: the spec's vector — host `192.168.1.10` and joiner
`192.168.2.20`, both private with differing third octets, is rejected. -/
theorem joinRoom_network_policy_witness :
    handleJoinRoom
        (run [.connect "h" "192.168.1.10", .connect "v" "192.168.2.20",
          .createRoom "h" "r"]) "v" "r" =
      (run [.connect "h" "192.168.1.10", .connect "v" "192.168.2.20",
        .createRoom "h" "r"],
       [.toConn "v" (.errorMsg "You can only join rooms from the same local network")]) :=
  (joinRoom_network_policy
      (run [.connect "h" "192.168.1.10", .connect "v" "192.168.2.20",
        .createRoom "h" "r"]) "v" "r"
      ⟨"h", some "192.168.1.10", [], false⟩ (by decide)
      "192.168.1.10" "192.168.2.20" (by decide) (by decide) (by decide) (by decide)).1
    ⟨by decide, by decide, by decide⟩

end Screenplay
